import Mathlib

/-!
# Verification of the vtid counter protocol and identifier type

Shallow embedding of the `vtid` crate (volatile type identifiers):

* `src/proc/src/lib.rs` — the persistent counter store
  (`read_and_update_counter`, `get_next_counter`, `LockGuard`,
  `get_unix_timestamp`, the `lazy_static` cell `BASE_ID`);
* `src/src/lib.rs` — the identifier type `Vtid` (pair of `TypeId` and
  `base_id : u64`) with its derived equality, ordering and hashing, and
  the constructor `private::vtid`.

File contents are modelled as `String` (sequences of `Char`; exact for the
ASCII data the counter protocol reads and writes).  Rust `u64` values are
modelled as `Nat` with explicit reduction modulo `2 ^ 64` where the code can
overflow.  Fallible I/O is modelled by an oracle of booleans, one per I/O
primitive, and `Except` results.
-/

/-- Modulus of Rust `u64` arithmetic. -/
def U64_MOD : Nat := 2 ^ 64

/-- Rust `char::is_whitespace`: the Unicode `White_Space` property.
Used by `str::trim`. -/
def rustIsWhitespace (c : Char) : Bool :=
  let n := c.toNat
  n == 9 || n == 10 || n == 11 || n == 12 || n == 13 || n == 32 ||
  n == 0x85 || n == 0xA0 || n == 0x1680 ||
  (0x2000 ≤ n && n ≤ 0x200A) ||
  n == 0x2028 || n == 0x2029 || n == 0x202F || n == 0x205F || n == 0x3000

/-- Strip leading and trailing whitespace from a character list. -/
def trimChars (cs : List Char) : List Char :=
  ((cs.dropWhile rustIsWhitespace).reverse.dropWhile rustIsWhitespace).reverse

/-- Model of Rust `str::trim`. -/
def rustTrim (s : String) : String := ⟨trimChars s.data⟩

/-- Numeric value of a list of decimal digit characters, most significant
first (the accumulator loop of Rust's integer `FromStr`). -/
def valOfDigits (cs : List Char) : Nat :=
  cs.foldl (fun a c => a * 10 + (c.toNat - 48)) 0

/-- Model of Rust `str::parse::<u64>()` (`u64::from_str`) on a character
list: an optional leading `'+'`, then one or more ASCII digits, rejecting
values that do not fit in 64 bits. -/
def parseU64Chars (cs : List Char) : Option Nat :=
  let ds := if cs.head? = some '+' then cs.tail else cs
  if ds.isEmpty then none
  else if ds.all Char.isDigit then
    let n := valOfDigits ds
    if n < U64_MOD then some n else none
  else none

/-- Model of Rust `str::parse::<u64>()`. -/
def parseU64 (s : String) : Option Nat := parseU64Chars s.data

/-- The ASCII character of a decimal digit. -/
def digitChar (d : Nat) : Char := Char.ofNat (48 + d)

/-- Fuel-driven decimal rendering loop (least significant digit peeled per
step, digits accumulated most significant first).  The fuel only bounds the
recursion; `fuel ≥ n` is always enough since `n` has at most `n` digits. -/
def decAux : Nat → Nat → List Char → List Char
  | 0, _, acc => acc
  | _ + 1, 0, acc => acc
  | fuel + 1, n + 1, acc =>
    decAux fuel ((n + 1) / 10) (digitChar ((n + 1) % 10) :: acc)

/-- Model of Rust `u64::to_string`: standard decimal rendering. -/
def natToDecimal (n : Nat) : String :=
  if n = 0 then "0" else ⟨decAux n n []⟩

/-- Model of `seek(SeekFrom::Start(0))` followed by `write_all`: the new
text overwrites the front of the file and any old bytes past the new text's
end are kept — the file is not truncated. -/
def overwriteStart (old new : String) : String :=
  ⟨new.data ++ old.data.drop new.data.length⟩

/-- Model of `read_and_update_counter` (src/proc/src/lib.rs:52-67) on its
data path: read the whole content, trim, parse as `u64` with the current
unix timestamp `ts` (`get_unix_timestamp`) as fallback on parse failure,
increment (release-profile wrapping `u64` addition), seek to the start and
write the decimal text of the new counter.  Returns the new counter and the
resulting file content. -/
def readAndUpdateCounter (ts : Nat) (content : String) : Nat × String :=
  let counter := (parseU64 (rustTrim content)).getD ts
  let newCounter := (counter + 1) % U64_MOD
  (newCounter, overwriteStart content (natToDecimal newCounter))


/-! ## Serialized runs of the counter store -/

/-- `k` successive counter-advance calls on the same file, each one an
atomic read-increment-write cycle (the exclusive `fs2` lock serializes the
critical sections, so any concurrent schedule of `k` callers executes as
some such sequence).  Returns the list of values handed to the callers and
the final file content. -/
def counterRun (ts : Nat) : Nat → String → List Nat × String
  | 0, c => ([], c)
  | k + 1, c =>
    let step := readAndUpdateCounter ts c
    let rest := counterRun ts k step.2
    (step.1 :: rest.1, rest.2)

/-! ## The identifier type -/

/-- Model of `core::any::TypeId`: an opaque, equatable, hashable, ordered
token, one per `'static` type; the language guarantees distinct types have
distinct tokens within a process. -/
abbrev TypeId := Nat

/-- Model of the `Vtid` struct (src/src/lib.rs:71-75): a `TypeId` paired
with the compilation-scoped `base_id : u64`; `derive(PartialEq, Eq)` gives
structural equality. -/
structure Vtid where
  tid : Nat
  base_id : Nat
deriving DecidableEq, Repr

/-- `derive(PartialOrd, Ord)` on `Vtid`: lexicographic comparison in field
declaration order, `tid` first, then `base_id`. -/
def Vtid.le (a b : Vtid) : Prop :=
  a.tid < b.tid ∨ (a.tid = b.tid ∧ a.base_id ≤ b.base_id)

/-- `derive(Hash)` on `Vtid` feeds exactly the two fields, in order, to the
hasher; modelled as the function returning that pair. -/
def Vtid.hashInput (v : Vtid) : TypeId × Nat := (v.tid, v.base_id)

/-- Model of `private::vtid::<T>(base_id)` (src/src/lib.rs:106-111): builds
`Vtid { tid: TypeId::of::<T>(), base_id }`. -/
def privateVtid (tid : TypeId) (base_id : Nat) : Vtid := ⟨tid, base_id⟩

/-- Model of `Vtid::of::<T>()` (src/src/lib.rs:82-88): calls `T::vtid()`,
whose derived body (src/proc/src/lib.rs:112-119) is
`private::vtid::<Self>(base_id)` with the `base_id` baked in at macro
expansion time. -/
def vtidOf (tid : TypeId) (base_id : Nat) : Vtid := privateVtid tid base_id

/-! ## The memoized base value -/

/-- Per-process state: the `lazy_static` cell `BASE_ID`
(src/proc/src/lib.rs:88-90) and the counter file content. -/
structure ProcState where
  cache : Option Nat
  file : String
deriving DecidableEq, Repr

/-- Model of evaluating `*BASE_ID` at unix time `ts`: on first access the
`lazy_static` cell runs `get_next_counter()` (one counter-file advance) and
caches the result; every later access returns the cached value without
touching the file. -/
def baseIdCall (ts : Nat) (s : ProcState) : Nat × ProcState :=
  match s.cache with
  | some v => (v, s)
  | none =>
    let r := readAndUpdateCounter ts s.file
    (r.1, ⟨some r.1, r.2⟩)

/-! ## I/O failures, aborts, and the lock guard -/

/-- One success/failure bit per fallible I/O primitive used by
`get_next_counter` and `read_and_update_counter`. -/
structure IoOracle where
  createDirOk : Bool
  openOk : Bool
  lockOk : Bool
  readOk : Bool
  seekOk : Bool
  writeOk : Bool
  syncOk : Bool
deriving DecidableEq, Repr

/-- The abort sites of the counter protocol: each corresponds to an
`expect` or `?` that ends code generation with a build failure. -/
inductive BuildAbort
  | openFile | lockFile | readFile | seekFile | writeFile | syncFile
deriving DecidableEq, Repr

/-- Acquisition and release of the exclusive file lock. -/
inductive LockEvent
  | acquire | release
deriving DecidableEq, Repr

/-- `read_and_update_counter` with its fallible I/O made explicit: `?` on
`read_to_string`, `seek`, `write_all` and `sync_all` propagates the error;
parsing never fails (timestamp fallback). -/
def readAndUpdateCounterErr (o : IoOracle) (ts : Nat) (c : String) :
    Except BuildAbort (Nat × String) :=
  if o.readOk = false then .error .readFile else
  if o.seekOk = false then .error .seekFile else
  if o.writeOk = false then .error .writeFile else
  if o.syncOk = false then .error .syncFile else
  .ok (readAndUpdateCounter ts c)

/-- Model of `get_next_counter` (src/proc/src/lib.rs:69-86), returning the
outcome and the trace of lock events.  The result of `create_dir_all` is
discarded by the code (`let _ = create_dir_all(parent);`), so
`createDirOk` does not influence control flow.  The `LockGuard` is created
only after `lock_exclusive` succeeds; its `Drop` impl unlocks on every
scope exit — normal return or unwinding from a failed `expect` — so every
acquire event is paired with a release event. -/
def getNextCounterModel (o : IoOracle) (ts : Nat) (c : String) :
    Except BuildAbort (Nat × String) × List LockEvent :=
  let _ := o.createDirOk
  if o.openOk = false then (.error .openFile, []) else
  if o.lockOk = false then (.error .lockFile, []) else
  match readAndUpdateCounterErr o ts c with
  | .ok r => (.ok r, [.acquire, .release])
  | .error e => (.error e, [.acquire, .release])

/-- Whether an outcome is a success (an identifier value is produced). -/
def buildOk : Except BuildAbort (Nat × String) → Bool
  | .ok _ => true
  | .error _ => false

/-- The decimal text of `u64::MAX`. -/
def u64MaxText : String := "18446744073709551615"

/-- The digit list of `n`, most significant first (empty for `0`). -/
def decDigits (n : Nat) : List Char := decAux n n []

/-! ## Properties of the decimal rendering -/

theorem decAux_zero (fuel : Nat) (acc : List Char) : decAux fuel 0 acc = acc := by
  cases fuel <;> rfl

theorem decAux_accum (fuel : Nat) :
    ∀ n acc, decAux fuel n acc = decAux fuel n [] ++ acc := by
  induction fuel with
  | zero => intro n acc; rfl
  | succ f ih =>
    intro n acc
    cases n with
    | zero => rfl
    | succ m =>
      show decAux f _ _ = decAux f _ _ ++ acc
      rw [ih ((m + 1) / 10) (digitChar ((m + 1) % 10) :: acc),
        ih ((m + 1) / 10) [digitChar ((m + 1) % 10)], List.append_assoc]
      rfl

theorem decAux_fuel_stable (fuel : Nat) :
    ∀ fuel' n acc, n ≤ fuel → n ≤ fuel' → decAux fuel n acc = decAux fuel' n acc := by
  induction fuel with
  | zero =>
    intro fuel' n acc h _
    cases Nat.le_zero.mp h
    rw [decAux_zero, decAux_zero]
  | succ f ih =>
    intro fuel' n acc h h'
    cases n with
    | zero => rw [decAux_zero, decAux_zero]
    | succ m =>
      cases fuel' with
      | zero => cases Nat.not_succ_le_zero m h'
      | succ f' =>
        show decAux f ((m + 1) / 10) _ = decAux f' ((m + 1) / 10) _
        have hd : (m + 1) / 10 ≤ m := Nat.le_of_lt_succ (Nat.div_lt_self (Nat.succ_pos m) (by decide))
        exact ih f' ((m + 1) / 10) _ (Nat.le_trans hd (Nat.le_of_succ_le_succ h))
          (Nat.le_trans hd (Nat.le_of_succ_le_succ h'))

theorem decDigits_succ (m : Nat) :
    decDigits (m + 1) = decDigits ((m + 1) / 10) ++ [digitChar ((m + 1) % 10)] := by
  have hd : (m + 1) / 10 ≤ m := Nat.le_of_lt_succ (Nat.div_lt_self (Nat.succ_pos m) (by decide))
  show decAux m ((m + 1) / 10) [digitChar ((m + 1) % 10)] = _
  rw [decAux_accum, decAux_fuel_stable m ((m + 1) / 10) ((m + 1) / 10) [] hd (Nat.le_refl _)]
  rfl

theorem decDigits_pos (n : Nat) (h : 0 < n) :
    decDigits n = decDigits (n / 10) ++ [digitChar (n % 10)] := by
  cases n with
  | zero => cases h
  | succ m => exact decDigits_succ m

theorem digitChar_toNat (d : Nat) (h : d < 10) : (digitChar d).toNat = 48 + d := by
  interval_cases d <;> decide

theorem digitChar_isDigit (d : Nat) (h : d < 10) : (digitChar d).isDigit = true := by
  interval_cases d <;> decide

theorem digitChar_not_ws (d : Nat) (h : d < 10) : rustIsWhitespace (digitChar d) = false := by
  interval_cases d <;> decide

theorem digitChar_ne_plus (d : Nat) (h : d < 10) : digitChar d ≠ '+' := by
  interval_cases d <;> decide

theorem decDigits_mem (n : Nat) :
    ∀ c ∈ decDigits n, c.isDigit = true ∧ rustIsWhitespace c = false ∧ c ≠ '+' := by
  induction n using Nat.strong_induction_on with
  | _ n ih =>
    cases n with
    | zero => intro c hc; cases hc
    | succ m =>
      rw [decDigits_succ]
      intro c hc
      rcases List.mem_append.mp hc with h | h
      · exact ih ((m + 1) / 10) (Nat.div_lt_self (Nat.succ_pos m) (by decide)) c h
      · have : c = digitChar ((m + 1) % 10) := List.mem_singleton.mp h
        subst this
        have h10 : (m + 1) % 10 < 10 := Nat.mod_lt _ (by decide)
        exact ⟨digitChar_isDigit _ h10, digitChar_not_ws _ h10, digitChar_ne_plus _ h10⟩

theorem valOfDigits_append_digit (cs : List Char) (c : Char) :
    valOfDigits (cs ++ [c]) = valOfDigits cs * 10 + (c.toNat - 48) := by
  unfold valOfDigits
  rw [List.foldl_append]
  rfl

theorem valOfDigits_decDigits (n : Nat) : valOfDigits (decDigits n) = n := by
  induction n using Nat.strong_induction_on with
  | _ n ih =>
    cases n with
    | zero => rfl
    | succ m =>
      rw [decDigits_succ, valOfDigits_append_digit,
        ih ((m + 1) / 10) (Nat.div_lt_self (Nat.succ_pos m) (by decide)),
        digitChar_toNat _ (Nat.mod_lt _ (by decide))]
      omega

theorem decDigits_length_mono {m n : Nat} (h : m ≤ n) :
    (decDigits m).length ≤ (decDigits n).length := by
  induction n using Nat.strong_induction_on generalizing m with
  | _ n ih =>
    cases Nat.eq_zero_or_pos m with
    | inl h0 => subst h0; exact Nat.zero_le _
    | inr hm =>
      have hn : 0 < n := Nat.lt_of_lt_of_le hm h
      rw [decDigits_pos m hm, decDigits_pos n hn, List.length_append, List.length_append]
      have : (decDigits (m / 10)).length ≤ (decDigits (n / 10)).length :=
        ih (n / 10) (Nat.div_lt_self hn (by decide)) (Nat.div_le_div_right h)
      simp only [List.length_singleton]
      omega

theorem natToDecimal_data (n : Nat) :
    (natToDecimal n).data = if n = 0 then ['0'] else decDigits n := by
  unfold natToDecimal
  split <;> rfl

theorem natToDecimal_mem (n : Nat) :
    ∀ c ∈ (natToDecimal n).data, c.isDigit = true ∧ rustIsWhitespace c = false ∧ c ≠ '+' := by
  rw [natToDecimal_data]
  split
  · intro c hc
    have : c = '0' := List.mem_singleton.mp hc
    subst this; exact ⟨by decide, by decide, by decide⟩
  · exact decDigits_mem n

theorem natToDecimal_ne_nil (n : Nat) : (natToDecimal n).data ≠ [] := by
  rw [natToDecimal_data]
  split
  · exact List.cons_ne_nil _ _
  · next h =>
    rw [decDigits_pos n (Nat.pos_of_ne_zero h)]
    simp

theorem valOfDigits_natToDecimal (n : Nat) : valOfDigits (natToDecimal n).data = n := by
  rw [natToDecimal_data]
  split
  · next h => subst h; rfl
  · exact valOfDigits_decDigits n

theorem natToDecimal_length_mono {m n : Nat} (h : m ≤ n) :
    (natToDecimal m).data.length ≤ (natToDecimal n).data.length := by
  rcases Nat.eq_zero_or_pos m with h0 | hm
  · subst h0
    rcases Nat.eq_zero_or_pos n with h0 | hn
    · subst h0; exact Nat.le_refl _
    · rw [natToDecimal_data, natToDecimal_data, if_pos rfl,
        if_neg (Nat.pos_iff_ne_zero.mp hn), decDigits_pos n hn, List.length_append]
      simp
  · rw [natToDecimal_data, natToDecimal_data, if_neg (Nat.pos_iff_ne_zero.mp hm),
      if_neg (Nat.pos_iff_ne_zero.mp (Nat.lt_of_lt_of_le hm h))]
    exact decDigits_length_mono h

/-! ## Round trip: the written decimal text parses back to its value -/

theorem dropWhile_eq_self_of_not {p : Char → Bool} :
    ∀ cs : List Char, (∀ c ∈ cs, p c = false) → cs.dropWhile p = cs := by
  intro cs h
  cases cs with
  | nil => rfl
  | cons c cs' =>
    rw [List.dropWhile_cons, h c (List.mem_cons_self c cs')]
    simp

theorem trimChars_eq_self {cs : List Char}
    (h : ∀ c ∈ cs, rustIsWhitespace c = false) : trimChars cs = cs := by
  unfold trimChars
  rw [dropWhile_eq_self_of_not cs h,
    dropWhile_eq_self_of_not cs.reverse (fun c hc => h c (List.mem_reverse.mp hc)),
    List.reverse_reverse]

theorem rustTrim_natToDecimal (n : Nat) : rustTrim (natToDecimal n) = natToDecimal n := by
  show String.mk _ = _
  rw [trimChars_eq_self (fun c hc => ((natToDecimal_mem n) c hc).2.1)]

theorem parseU64Chars_digits (cs : List Char) (hne : cs ≠ [])
    (hd : ∀ c ∈ cs, c.isDigit = true ∧ c ≠ '+') :
    parseU64Chars cs = if valOfDigits cs < U64_MOD then some (valOfDigits cs) else none := by
  unfold parseU64Chars
  cases cs with
  | nil => exact absurd rfl hne
  | cons c cs' =>
    have h1 : ¬((c :: cs').head? = some '+') := by
      simp only [List.head?_cons, Option.some.injEq]
      exact (hd c (List.mem_cons_self c cs')).2
    have h2 : (c :: cs').isEmpty = false := rfl
    have h3 : (c :: cs').all Char.isDigit = true := by
      rw [List.all_eq_true]
      intro x hx
      exact (hd x hx).1
    rw [if_neg h1]
    simp only [h2, h3, Bool.false_eq_true, if_false, if_true]

theorem parseU64_natToDecimal {n : Nat} (h : n < U64_MOD) :
    parseU64 (natToDecimal n) = some n := by
  unfold parseU64
  rw [parseU64Chars_digits _ (natToDecimal_ne_nil n)
      (fun c hc => ⟨(natToDecimal_mem n c hc).1, (natToDecimal_mem n c hc).2.2⟩),
    valOfDigits_natToDecimal, if_pos h]

/-! ## The counter step on well-formed contents -/

/-- On a file holding exactly the decimal text of `m` (no overflow), one
counter-advance returns `m + 1` and leaves exactly the decimal text of
`m + 1`: the new text is never shorter than the old, so the
non-truncating write covers the whole file. -/
theorem readAndUpdateCounter_decimal (ts m : Nat) (h : m + 1 < U64_MOD) :
    readAndUpdateCounter ts (natToDecimal m) = (m + 1, natToDecimal (m + 1)) := by
  unfold readAndUpdateCounter
  rw [rustTrim_natToDecimal, parseU64_natToDecimal (Nat.lt_of_succ_lt h)]
  simp only [Option.getD_some]
  rw [Nat.mod_eq_of_lt h]
  unfold overwriteStart
  rw [List.drop_eq_nil_of_le (natToDecimal_length_mono (Nat.le_succ m)), List.append_nil]

/-- Value and content of one step when the trimmed content parses as `n`. -/
theorem readAndUpdateCounter_parsed (ts : Nat) (c : String) (n : Nat)
    (hp : parseU64 (rustTrim c) = some n) (h : n + 1 < U64_MOD) :
    readAndUpdateCounter ts c = (n + 1, overwriteStart c (natToDecimal (n + 1))) := by
  unfold readAndUpdateCounter
  rw [hp]
  simp only [Option.getD_some]
  rw [Nat.mod_eq_of_lt h]

/-- Value and content of one step when parsing fails: the unix timestamp
`ts` replaces the previous value. -/
theorem readAndUpdateCounter_fallback (ts : Nat) (c : String)
    (hp : parseU64 (rustTrim c) = none) :
    readAndUpdateCounter ts c =
      ((ts + 1) % U64_MOD, overwriteStart c (natToDecimal ((ts + 1) % U64_MOD))) := by
  unfold readAndUpdateCounter
  rw [hp]
  rfl

theorem counterRun_decimal (ts : Nat) :
    ∀ (k n : Nat), n + k < U64_MOD →
      counterRun ts k (natToDecimal n) =
        ((List.range k).map (fun i => n + 1 + i), natToDecimal (n + k)) := by
  intro k
  induction k with
  | zero => intro n _; simp [counterRun]
  | succ k ih =>
    intro n h
    have h1 : n + 1 < U64_MOD := by omega
    simp only [counterRun]
    rw [readAndUpdateCounter_decimal ts n h1]
    simp only
    rw [ih (n + 1) (by omega)]
    have hlist : (List.range (k + 1)).map (fun i => n + 1 + i)
        = (n + 1) :: (List.range k).map (fun i => n + 1 + 1 + i) := by
      rw [List.range_succ_eq_map, List.map_cons, List.map_map]
      simp only [Nat.add_zero]
      congr 1
      apply List.map_congr_left
      intro i _
      show n + 1 + (i + 1) = n + 1 + 1 + i
      omega
    rw [hlist]
    have harg : n + 1 + k = n + (k + 1) := by omega
    rw [harg]

/-- Defining equation of the counter step, with the pair explicit. -/
theorem readAndUpdateCounter_eq (ts : Nat) (c : String) :
    readAndUpdateCounter ts c =
      ((((parseU64 (rustTrim c)).getD ts) + 1) % U64_MOD,
        overwriteStart c (natToDecimal ((((parseU64 (rustTrim c)).getD ts) + 1) % U64_MOD))) :=
  rfl

/-! ## Claims -/

/-- C1 fails as stated: the content `" 41"` trims and parses to `41` and the
call returns `42`, but the non-truncating write leaves the file holding
`"421"`, not the decimal text `"42"` of the returned value. -/
theorem C1_counterexample :
    (readAndUpdateCounter 0 " 41").1 = 42 ∧
    (readAndUpdateCounter 0 " 41").2 = "421" ∧
    (readAndUpdateCounter 0 " 41").2 ≠ "42" := by
  decide

/-- C1 (amended): for content trimming and parsing to `n` with `n + 1`
representable, a single counter-advance returns `n + 1` and leaves the
decimal text of `n + 1` followed by the prior content's characters beyond
that text's length; whenever the prior content is no longer than the new
text — in particular on a file containing exactly `"41"` — the file
contains exactly the decimal text of `n + 1`. -/
theorem C1_amended (ts : Nat) (c : String) (n : Nat)
    (hp : parseU64 (rustTrim c) = some n) (hov : n + 1 < U64_MOD) :
    (readAndUpdateCounter ts c).1 = n + 1 ∧
    (readAndUpdateCounter ts c).2 = overwriteStart c (natToDecimal (n + 1)) ∧
    (c.data.length ≤ (natToDecimal (n + 1)).data.length →
      (readAndUpdateCounter ts c).2 = natToDecimal (n + 1)) := by
  rw [readAndUpdateCounter_parsed ts c n hp hov]
  refine ⟨rfl, rfl, fun hlen => ?_⟩
  unfold overwriteStart
  rw [List.drop_eq_nil_of_le hlen, List.append_nil]

/-- Witness for C1 (amended) at the spec's own example `"41"`. -/
theorem C1_witness :
    parseU64 (rustTrim "41") = some 41 ∧ 41 + 1 < U64_MOD ∧
    (readAndUpdateCounter 0 "41").1 = 42 ∧
    (readAndUpdateCounter 0 "41").2 = natToDecimal 42 := by
  refine ⟨by decide, by decide, ?_, ?_⟩
  · exact (C1_amended 0 "41" 41 (by decide) (by decide)).1
  · exact (C1_amended 0 "41" 41 (by decide) (by decide)).2.2 (by decide)

/-- C3 fails as stated: on garbage longer than the new value's text the
file keeps a tail of the old content.  With timestamp `1700000000` and
content `"not-a-number"` the call succeeds and returns `1700000001`, but
the file afterwards holds `"1700000001er"`, not the bare decimal text. -/
theorem C3_counterexample :
    (readAndUpdateCounter 1700000000 "not-a-number").1 = 1700000001 ∧
    (readAndUpdateCounter 1700000000 "not-a-number").2 = "1700000001er" ∧
    (readAndUpdateCounter 1700000000 "not-a-number").2 ≠ natToDecimal 1700000001 := by
  decide

/-- C3 (amended): after every call the file's contents are the decimal
text of the returned value followed by the prior content's characters
beyond that text's length (the write seeks to the start but does not
truncate); they are exactly that decimal text whenever the prior content
is no longer than it. -/
theorem C3_amended (ts : Nat) (c : String) :
    ((readAndUpdateCounter ts c).2).data =
      (natToDecimal ((readAndUpdateCounter ts c).1)).data ++
        c.data.drop (natToDecimal ((readAndUpdateCounter ts c).1)).data.length ∧
    (c.data.length ≤ (natToDecimal ((readAndUpdateCounter ts c).1)).data.length →
      (readAndUpdateCounter ts c).2 = natToDecimal ((readAndUpdateCounter ts c).1)) := by
  rw [readAndUpdateCounter_eq]
  refine ⟨rfl, fun hlen => ?_⟩
  unfold overwriteStart
  rw [List.drop_eq_nil_of_le hlen, List.append_nil]

/-- Witness for C3 (amended) on a short prior content. -/
theorem C3_witness :
    ("7".data.length ≤ (natToDecimal ((readAndUpdateCounter 0 "7").1)).data.length) ∧
    (readAndUpdateCounter 0 "7").2 = natToDecimal ((readAndUpdateCounter 0 "7").1) :=
  ⟨by decide, (C3_amended 0 "7").2 (by decide)⟩

/-- C4: content that does not parse (after trimming) never fails the call:
the unix timestamp `ts` is substituted as the recovered previous value and
the returned counter is `ts + 1`; for parsable content surrounded by
whitespace the trimmed numeric value is used. -/
theorem C4_fallback (ts : Nat) (c : String) :
    (parseU64 (rustTrim c) = none → ts + 1 < U64_MOD →
      (readAndUpdateCounter ts c).1 = ts + 1) ∧
    (∀ n, parseU64 (rustTrim c) = some n → n + 1 < U64_MOD →
      (readAndUpdateCounter ts c).1 = n + 1) := by
  constructor
  · intro hp hov
    rw [readAndUpdateCounter_fallback ts c hp]
    exact Nat.mod_eq_of_lt hov
  · intro n hp hov
    rw [readAndUpdateCounter_parsed ts c n hp hov]

/-- Witness for C4: garbage content recovers to timestamp + 1, and
whitespace-surrounded numeric content uses the trimmed value. -/
theorem C4_witness :
    parseU64 (rustTrim "not-a-number") = none ∧
    parseU64 (rustTrim " 41 ") = some 41 ∧
    (readAndUpdateCounter 1700000000 "not-a-number").1 = 1700000001 ∧
    (readAndUpdateCounter 0 " 41 ").1 = 42 := by
  refine ⟨by decide, by decide, ?_, ?_⟩
  · exact (C4_fallback 1700000000 "not-a-number").1 (by decide) (by decide)
  · exact (C4_fallback 0 " 41 ").2 41 (by decide) (by decide)

/-- C10: the increment is an unguarded u64 addition: any parsed value
`n < 2^64 - 1` yields exactly `n + 1`, while a file holding the decimal
text of `2^64 - 1` — or a timestamp fallback equal to it — wraps to `0`
(release-profile semantics), which is not the successor `2^64`. -/
theorem C10_overflow :
    (∀ ts c n, parseU64 (rustTrim c) = some n → n < U64_MOD - 1 →
      (readAndUpdateCounter ts c).1 = n + 1) ∧
    parseU64 (rustTrim u64MaxText) = some (U64_MOD - 1) ∧
    (∀ ts, (readAndUpdateCounter ts u64MaxText).1 = 0) ∧
    (∀ c, parseU64 (rustTrim c) = none →
      (readAndUpdateCounter (U64_MOD - 1) c).1 = 0) := by
  refine ⟨?_, by decide, ?_, ?_⟩
  · intro ts c n hp hn
    exact congrArg Prod.fst (readAndUpdateCounter_parsed ts c n hp (by omega))
  · intro ts
    rw [readAndUpdateCounter_eq]
    show ((parseU64 (rustTrim u64MaxText)).getD ts + 1) % U64_MOD = 0
    rw [show parseU64 (rustTrim u64MaxText) = some (U64_MOD - 1) from by decide]
    show (U64_MOD - 1 + 1) % U64_MOD = 0
    rw [Nat.sub_add_cancel (by decide : 1 ≤ U64_MOD), Nat.mod_self]
  · intro c hp
    rw [readAndUpdateCounter_fallback _ _ hp]
    show (U64_MOD - 1 + 1) % U64_MOD = 0
    rw [Nat.sub_add_cancel (by decide : 1 ≤ U64_MOD), Nat.mod_self]

/-- Witness for C10 on the non-overflowing branch. -/
theorem C10_witness :
    parseU64 (rustTrim "41") = some 41 ∧ 41 < U64_MOD - 1 ∧
    (readAndUpdateCounter 0 "41").1 = 42 :=
  ⟨by decide, by decide, C10_overflow.1 0 "41" 41 (by decide) (by decide)⟩

/-- C2: the exclusive lock makes each read-increment-write cycle atomic,
so any schedule of `k` callers on the same file executes as a serialized
run.  Starting from a well-formed counter file holding `n` (no overflow),
the `k` callers receive exactly `n + 1, …, n + k`: pairwise distinct
values, each previous value observed once, and no lost update (the file
ends at `n + k`).  The corrupted-content fallback, which the claim itself
exempts, is outside this hypothesis. -/
theorem C2_serialized (ts n k : Nat) (h : n + k < U64_MOD) :
    (counterRun ts k (natToDecimal n)).1 = (List.range k).map (fun i => n + 1 + i) ∧
    (counterRun ts k (natToDecimal n)).1.Nodup ∧
    (counterRun ts k (natToDecimal n)).2 = natToDecimal (n + k) := by
  rw [counterRun_decimal ts k n h]
  refine ⟨rfl, ?_, rfl⟩
  exact (List.nodup_range k).map (fun a b hab => by omega)

/-- Witness for C2: three serialized calls from `"41"` get 42, 43, 44. -/
theorem C2_witness :
    41 + 3 < U64_MOD ∧
    (counterRun 0 3 (natToDecimal 41)).1 = (List.range 3).map (fun i => 41 + 1 + i) ∧
    (counterRun 0 3 (natToDecimal 41)).1.Nodup ∧
    (counterRun 0 3 (natToDecimal 41)).2 = natToDecimal (41 + 3) :=
  ⟨by decide, C2_serialized 0 41 3 (by decide)⟩

/-- The cache of the `lazy_static` cell is filled after any access. -/
theorem baseIdCall_cache (ts : Nat) (s : ProcState) :
    (baseIdCall ts s).2.cache = some (baseIdCall ts s).1 := by
  unfold baseIdCall
  cases hc : s.cache with
  | none => rfl
  | some v => exact hc

/-- An access on a filled cache returns the cached value, with no effect. -/
theorem baseIdCall_cached (ts : Nat) (s : ProcState) (v : Nat)
    (h : s.cache = some v) : baseIdCall ts s = (v, s) := by
  unfold baseIdCall
  rw [h]

/-- C5: the base value is computed at most once per process: the first
access of the `lazy_static` cell performs the counter advance, and every
later access returns the same cached value and leaves the process state —
including the counter file — untouched; hence every `HasVtid` expansion in
the same process bakes in the same `base_id`, and two identifiers computed
for the same type in that process are equal. -/
theorem C5_memoized (ts1 ts2 : Nat) (f : String) (s : ProcState) (t : TypeId) :
    (baseIdCall ts1 ⟨none, f⟩).1 = (readAndUpdateCounter ts1 f).1 ∧
    (baseIdCall ts2 (baseIdCall ts1 s).2).1 = (baseIdCall ts1 s).1 ∧
    (baseIdCall ts2 (baseIdCall ts1 s).2).2 = (baseIdCall ts1 s).2 ∧
    vtidOf t (baseIdCall ts2 (baseIdCall ts1 s).2).1 = vtidOf t (baseIdCall ts1 s).1 := by
  have h2 : baseIdCall ts2 (baseIdCall ts1 s).2 = ((baseIdCall ts1 s).1, (baseIdCall ts1 s).2) :=
    baseIdCall_cached ts2 _ _ (baseIdCall_cache ts1 s)
  refine ⟨rfl, ?_, ?_, ?_⟩ <;> rw [h2]

/-- C6: equality on `Vtid` holds iff both the identity token and the base
value are equal; for a fixed type, different base values give unequal
identifiers; the derived lexicographic comparison is a total order
(total, antisymmetric, transitive, reflexive); and the derived hash is a
function of exactly the pair of fields. -/
theorem C6_pair_structure :
    (∀ a b : Vtid, a = b ↔ a.tid = b.tid ∧ a.base_id = b.base_id) ∧
    (∀ (t : TypeId) (b1 b2 : Nat), b1 ≠ b2 → privateVtid t b1 ≠ privateVtid t b2) ∧
    (∀ a b : Vtid, Vtid.le a b ∨ Vtid.le b a) ∧
    (∀ a b : Vtid, Vtid.le a b → Vtid.le b a → a = b) ∧
    (∀ a b c : Vtid, Vtid.le a b → Vtid.le b c → Vtid.le a c) ∧
    (∀ a : Vtid, Vtid.le a a) ∧
    (∀ a b : Vtid, a = b → Vtid.hashInput a = Vtid.hashInput b) := by
  refine ⟨?_, ?_, ?_, ?_, ?_, ?_, ?_⟩
  · intro a b
    cases a
    cases b
    simp [Vtid.mk.injEq]
  · exact fun t b1 b2 h hq => h (congrArg Vtid.base_id hq)
  · rintro ⟨ta, ba⟩ ⟨tb, bb⟩
    show (ta < tb ∨ (ta = tb ∧ ba ≤ bb)) ∨ (tb < ta ∨ (tb = ta ∧ bb ≤ ba))
    rcases Nat.lt_trichotomy ta tb with h | h | h
    · exact Or.inl (Or.inl h)
    · rcases Nat.le_total ba bb with hb | hb
      · exact Or.inl (Or.inr ⟨h, hb⟩)
      · exact Or.inr (Or.inr ⟨h.symm, hb⟩)
    · exact Or.inr (Or.inl h)
  · rintro ⟨ta, ba⟩ ⟨tb, bb⟩ h1 h2
    have h1' : ta < tb ∨ (ta = tb ∧ ba ≤ bb) := h1
    have h2' : tb < ta ∨ (tb = ta ∧ bb ≤ ba) := h2
    simp only [Vtid.mk.injEq]
    rcases h1' with h1' | ⟨hte, hbe⟩ <;> rcases h2' with h2' | ⟨hte2, hbe2⟩ <;>
      exact ⟨by omega, by omega⟩
  · rintro ⟨ta, ba⟩ ⟨tb, bb⟩ ⟨tc, bc⟩ h1 h2
    have h1' : ta < tb ∨ (ta = tb ∧ ba ≤ bb) := h1
    have h2' : tb < tc ∨ (tb = tc ∧ bb ≤ bc) := h2
    show ta < tc ∨ (ta = tc ∧ ba ≤ bc)
    rcases h1' with h1' | ⟨hte, hbe⟩ <;> rcases h2' with h2' | ⟨hte2, hbe2⟩
    · exact Or.inl (by omega)
    · exact Or.inl (by omega)
    · exact Or.inl (by omega)
    · exact Or.inr ⟨by omega, by omega⟩
  · rintro ⟨ta, ba⟩
    exact Or.inr ⟨rfl, Nat.le_refl ba⟩
  · exact fun a b h => congrArg Vtid.hashInput h

/-- Witness for C6 on the base-value conjunct. -/
theorem C6_witness :
    (1 : Nat) ≠ 2 ∧ privateVtid 5 1 ≠ privateVtid 5 2 :=
  ⟨by decide, C6_pair_structure.2.1 5 1 2 (by decide)⟩

/-- C7: for distinct identity tokens (distinct `'static` types in one
process), the identifiers differ in the `tid` field and hence are unequal,
even with the same base value. -/
theorem C7_distinct_types (t u : TypeId) (b : Nat) (h : t ≠ u) :
    (vtidOf t b).tid ≠ (vtidOf u b).tid ∧ vtidOf t b ≠ vtidOf u b :=
  ⟨h, fun hq => h (congrArg Vtid.tid hq)⟩

/-- Witness for C7 at concrete tokens with an identical base value. -/
theorem C7_witness :
    (0 : TypeId) ≠ 1 ∧ (vtidOf 0 7).tid ≠ (vtidOf 1 7).tid ∧ vtidOf 0 7 ≠ vtidOf 1 7 :=
  ⟨by decide, C7_distinct_types 0 1 7 (by decide)⟩

/-- C8: the exclusive lock is released on every exit path.  For every
failure pattern of the I/O primitives, the lock-event trace of a call is
either empty (open or lock acquisition itself failed, so nothing was
acquired) or exactly acquire-then-release — also on the paths where
reading, seeking, writing or syncing fails after acquisition — and
acquire and release events always balance. -/
theorem C8_lock_released (o : IoOracle) (ts : Nat) (c : String) :
    ((getNextCounterModel o ts c).2 = [] ∨
     (getNextCounterModel o ts c).2 = [.acquire, .release]) ∧
    (getNextCounterModel o ts c).2.count .acquire =
      (getNextCounterModel o ts c).2.count .release := by
  unfold getNextCounterModel
  cases ho : o.openOk with
  | false => simp
  | true =>
    cases hl : o.lockOk with
    | false => simp
    | true =>
      cases hr : readAndUpdateCounterErr o ts c with
      | ok r => simp
      | error e => simp

/-- C9 fails as stated: `get_next_counter` discards the result of
`create_dir_all` (`let _ = …`), so a directory-creation failure alone
does not abort: with every other primitive succeeding, the call still
produces an identifier value. -/
theorem C9_counterexample :
    (getNextCounterModel ⟨false, true, true, true, true, true, true⟩ 0 "41").1 =
      .ok (42, "42") := by
  rfl

/-- C9 (amended): a call succeeds exactly when open, lock, read, seek,
write and sync all succeed — any of those failures aborts code generation
with no identifier produced — while the outcome never depends on whether
`create_dir_all` succeeded (that failure is ignored, and is fatal only
indirectly, when it makes the subsequent open fail). -/
theorem C9_amended (o : IoOracle) (ts : Nat) (c : String) :
    buildOk (getNextCounterModel o ts c).1 =
      (o.openOk && o.lockOk && o.readOk && o.seekOk && o.writeOk && o.syncOk) ∧
    getNextCounterModel o ts c =
      getNextCounterModel ⟨true, o.openOk, o.lockOk, o.readOk, o.seekOk, o.writeOk, o.syncOk⟩ ts c := by
  rcases o with ⟨d, op, lk, rd, sk, wr, sy⟩
  cases op <;> cases lk <;> cases rd <;> cases sk <;> cases wr <;> cases sy <;>
    simp [getNextCounterModel, readAndUpdateCounterErr, buildOk]
